import Mathlib

/-!
Shallow embedding of the quirrel-postgres client
(src/quirrel/src/client/index.ts and src/quirrel/src/client/job.ts),
together with proofs settling the frozen claims about it.

JavaScript numbers are modelled as exact rationals, Date values as integer
millisecond timestamps, thrown errors as `Except String` / structured error
values, and the Postgres-backed job table (prisma model `job` plus the
pg_cron `cron.schedule` operation) as an explicit registry state that is
threaded through the stateful operations.  `console.log` output is modelled
as a list of emitted log lines where a claim refers to it.
-/

namespace Quirrel

/-! ## Duration inputs and the vercel/ms grammar

`timeDuration` in the source is `z.union([z.number().min(1, ...), vercelMs])`
where `vercelMs` is a `z.string().regex(...)` whose regular expression is the
one used by the `ms` npm package:

  ^(-?(?:\d+)?\.?\d+) *(milliseconds?|msecs?|ms|seconds?|secs?|s|minutes?|mins?|m|hours?|hrs?|h|days?|d|weeks?|w|years?|yrs?|y)?$   (case-insensitive)

`parseDuration` feeds accepted strings to `ms(...)`, which matches the same
regular expression and multiplies the parsed magnitude by the unit factor.
-/

/-- A value of TypeScript type `number | string` used as a duration. -/
inductive DurationInput where
  | num (q : ℚ)
  | str (s : String)
deriving Repr, DecidableEq

/-- The unit alternatives of the vercel/ms regular expression (all lowercase;
the match is case-insensitive). -/
def unitList : List String :=
  ["milliseconds", "millisecond", "msecs", "msec", "ms",
   "seconds", "second", "secs", "sec", "s",
   "minutes", "minute", "mins", "min", "m",
   "hours", "hour", "hrs", "hr", "h",
   "days", "day", "d",
   "weeks", "week", "w",
   "years", "year", "yrs", "yr", "y"]

/-- Millisecond factor per unit, as in the `ms` package
(`y = 365.25 d`, `w = 7 d`, `d = 24 h`, `h = 60 m`, `m = 60 s`, `s = 1000`). -/
def unitFactor (u : String) : Option ℚ :=
  if u ∈ ["years", "year", "yrs", "yr", "y"] then some 31557600000
  else if u ∈ ["weeks", "week", "w"] then some 604800000
  else if u ∈ ["days", "day", "d"] then some 86400000
  else if u ∈ ["hours", "hour", "hrs", "hr", "h"] then some 3600000
  else if u ∈ ["minutes", "minute", "mins", "min", "m"] then some 60000
  else if u ∈ ["seconds", "second", "secs", "sec", "s"] then some 1000
  else if u ∈ ["milliseconds", "millisecond", "msecs", "msec", "ms"] then some 1
  else none

/-- Result of matching the vercel/ms regular expression: sign, integer digits,
fraction digits, and the (lowercased) unit, `""` when the unit is absent. -/
structure MsMatch where
  neg : Bool
  intPart : List Char
  fracPart : List Char
  unit : String
deriving Repr, DecidableEq

/-- The trailing ` *(unit)?$` part of the regular expression: skip spaces,
then the remainder must be empty or (case-insensitively) one of the unit
alternatives. -/
def checkUnit (rest : List Char) : Option String :=
  let r := rest.dropWhile (fun c => c == ' ')
  if r.isEmpty then some ""
  else if String.mk (r.map Char.toLower) ∈ unitList then some (String.mk (r.map Char.toLower))
  else none

/-- Optional leading minus sign (`-?`). -/
def stripNeg (cs : List Char) : Bool × List Char :=
  match cs with
  | '-' :: rest => (true, rest)
  | _ => (false, cs)

/-- Package the number parts with the checked unit. -/
def matchWithUnit (neg : Bool) (ip fp rest : List Char) : Option MsMatch :=
  (checkUnit rest).map (fun u => ⟨neg, ip, fp, u⟩)

/-- Matcher for the vercel/ms regular expression
`^(-?(?:\d+)?\.?\d+) *(unit)?$` (case-insensitive): used both by the zod
validator `vercelMs` and by the `ms` package itself, which embed the same
expression. -/
def matchVercelMs (s : String) : Option MsMatch :=
  let p := stripNeg s.data
  let ipr := p.2.span Char.isDigit
  match ipr.2 with
  | '.' :: cs3 =>
    let fpr := cs3.span Char.isDigit
    if fpr.1.isEmpty then none
    else matchWithUnit p.1 ipr.1 fpr.1 fpr.2
  | rest =>
    if ipr.1.isEmpty then none
    else matchWithUnit p.1 ipr.1 [] rest

/-- Digits to natural number. -/
def digitsToNat (ds : List Char) : Nat :=
  ds.foldl (fun acc c => 10 * acc + (c.toNat - '0'.toNat)) 0

/-- `parseFloat` of the matched magnitude, exact (rationals instead of IEEE
doubles). -/
def msMagnitude (m : MsMatch) : ℚ :=
  let whole : ℚ :=
    (digitsToNat m.intPart : ℚ) + (digitsToNat m.fracPart : ℚ) / ((10 : ℚ) ^ m.fracPart.length)
  if m.neg then -whole else whole

/-- The `ms` package applied to a string: `undefined` when the regular
expression does not match, else magnitude times unit factor (absent unit
defaults to `"ms"`). -/
def ms (s : String) : Option ℚ :=
  match matchVercelMs s with
  | none => none
  | some m =>
    (unitFactor (if m.unit = "" then "ms" else m.unit)).map (fun f => msMagnitude m * f)

/-- `parseDuration` from src/quirrel/src/client/index.ts: JS-falsy inputs
(absent, the number 0, the empty string) yield `undefined`; strings go
through `ms`; numbers pass through. -/
def parseDuration (value : Option DurationInput) : Option ℚ :=
  match value with
  | none => none
  | some (.num q) => if q = 0 then none else some q
  | some (.str s) => if s = "" then none else ms s

/-- Issues produced by the zod schema `timeDuration(fieldName)`
(`z.union([z.number().min(1, msg), vercelMs])`), flattened to the message of
the branch matching the input's runtime type. -/
def timeDurationIssues (fieldName : String) (d : DurationInput) : List String :=
  match d with
  | .num q => if 1 ≤ q then [] else [fieldName ++ " must be positive"]
  | .str s =>
    if (matchVercelMs s).isSome then []
    else ["Please provide a valid time span, according to https://github.com/vercel/ms"]

/-! ## Enqueue job options (EnqueueJobOptionsSchema) -/

/-- `JobId = string | number` from src/quirrel/src/client/job.ts. -/
inductive JobId where
  | str (s : String)
  | num (n : Int)
deriving Repr, DecidableEq

/-- The `repeat` member of `EnqueueJobOptionsSchema`.  The source field is
called `repeat`; that word is reserved in Lean, so the field is `rep` here. -/
structure RepeatOptions where
  every : Option DurationInput := none
  times : Option ℚ := none
  cron : Option String := none
deriving Repr, DecidableEq

/-- Raw enqueue options (`EnqueueJobOptionsSchema` input).  `runAt` is a
`Date`, modelled as an integer millisecond timestamp.  The source field
`repeat` is `rep` here (reserved word). -/
structure EnqueueJobOptions where
  id : Option JobId := none
  exclusive : Option Bool := none
  override : Option Bool := none
  retry : Option (List DurationInput) := none
  delay : Option DurationInput := none
  runAt : Option Int := none
  rep : Option RepeatOptions := none
deriving Repr, DecidableEq

/-- Issue list of `EnqueueJobOptionsSchema.parse`, field by field, with the
custom messages of the source schema (zod default texts for the bounds it
leaves unnamed).  The cron refinement function (`isValidRegex`, imported from
src/shared/is-valid-regex whose body is not part of this repository snapshot)
is a parameter.  `now` is the value of `Date.now()` during validation, used
by the `runAt` refinement `Date.now() <= +date`. -/
def zodIssues (cronRefine : String → Bool) (now : Int) (o : EnqueueJobOptions) : List String :=
  (match o.retry with
   | none => []
   | some l =>
     ((l.map (timeDurationIssues "retry")).flatten) ++
     (if l.length < 1 then ["Array must contain at least 1 element(s)"] else []) ++
     (if l.length > 10 then ["Array must contain at most 10 element(s)"] else []))
  ++ (match o.delay with
      | none => []
      | some d => timeDurationIssues "delay" d)
  ++ (match o.runAt with
      | none => []
      | some t => if now ≤ t then [] else ["runAt must not be in the past"])
  ++ (match o.rep with
      | none => []
      | some r =>
        (match r.every with
         | none => []
         | some d => timeDurationIssues "every" d)
        ++ (match r.times with
            | none => []
            | some q => if 0 ≤ q then [] else ["Number must be greater than or equal to 0"])
        ++ (match r.cron with
            | none => []
            | some c =>
              if cronRefine c then []
              else ["Please provide a valid Cron expression. See https://github.com/harrisiirak/cron-parser for reference"]))

/-- The exported `cron` schema: `z.string().refine(isValidRegex, ...)`.
Acceptance is exactly the refinement function's verdict. -/
def cronAccepts (isValidRegex : String → Bool) (s : String) : Bool :=
  isValidRegex s

/-- Splits a character list on spaces (like `String.splitOn " "`). -/
def splitSpaces : List Char → List Char → List (List Char)
  | [], acc => [acc.reverse]
  | c :: cs, acc =>
    if c == ' ' then acc.reverse :: splitSpaces cs []
    else splitSpaces cs (c :: acc)

/-- Modelled from the spec: a syntactically well-formed 5-field cron
expression, which §4.2 rule 7 requires the `repeat.cron` validation to
accept; in this bounded model, five space-separated nonempty fields.
(The repository's actual refinement function body, src/shared/is-valid-regex,
is not under src/.) -/
def wellFormedCron5 (s : String) : Bool :=
  ((splitSpaces s.data []).filter (fun f => !f.isEmpty)).length == 5

/-! ## The registry: the prisma `job` table plus pg_cron -/

/-- A row of the prisma model `job` (src/quirrel/src/prisma/schema.prisma),
restricted to the columns the client reads or writes. -/
structure DbJob where
  jobid : Int
  schedule : String
  command : String
  jobname : String
  active : Bool
deriving Repr, DecidableEq

/-- The durable scheduler's state: the `job` table plus the id sequence. -/
structure Registry where
  jobs : List DbJob
  nextId : Int
deriving Repr, DecidableEq

/-- `prisma.job.deleteMany({ where: { jobname } })`: drops the matching rows
and reports how many were removed. -/
def deleteManyByJobname (st : Registry) (name : String) : Registry × Nat :=
  (⟨st.jobs.filter (fun j => j.jobname != name), st.nextId⟩,
   (st.jobs.filter (fun j => j.jobname == name)).length)

/-- `prisma.job.deleteMany({ where: { jobid } })`. -/
def deleteManyByJobid (st : Registry) (n : Int) : Registry × Nat :=
  (⟨st.jobs.filter (fun j => j.jobid != n), st.nextId⟩,
   (st.jobs.filter (fun j => j.jobid == n)).length)

/-- `prisma.job.deleteMany()` with no filter: empties the table. -/
def deleteManyAll (st : Registry) : Registry × Nat :=
  (⟨[], st.nextId⟩, st.jobs.length)

/-- Modelled from the spec: the durable scheduler's idempotent
`schedule(name, cron-or-equivalent, action)` operation (§6), here pg_cron's
`cron.schedule(jobname, schedule, command)`, which creates or updates the
entry with the given name and returns its jobid. -/
def cronScheduleOp (st : Registry) (name sched cmd : String) : Registry × Int :=
  match st.jobs.find? (fun j => j.jobname == name) with
  | some j =>
    (⟨st.jobs.map (fun k => if k.jobname == name then { k with schedule := sched, command := cmd } else k),
      st.nextId⟩, j.jobid)
  | none =>
    (⟨st.jobs ++ [⟨st.nextId, sched, cmd, name, true⟩], st.nextId + 1⟩, st.nextId)

/-- `prisma.job.findFirst({ where: { jobid } })`. -/
def findFirstByJobid (st : Registry) (n : Int) : Option DbJob :=
  st.jobs.find? (fun j => j.jobid == n)

/-! ## Encryption layer (secure-e2ee, external collaborator) -/

/-- The secure-e2ee `Encryptor`, at its interface boundary: `encrypt` with
the active secret, `decrypt` trying the active then each retired secret and
failing when all are exhausted.  The cipher itself is external, so both are
abstract functions. -/
structure Encryptor where
  encrypt : String → String
  decrypt : String → Except String String

/-- `getEncryptor` from src/quirrel/src/client/index.ts: no secret means no
encryptor; otherwise `new Encryptor(secret, [secret, ...oldSecrets])`, with
the constructor abstract (`mk`). -/
def getEncryptor (mk : String → List String → Encryptor)
    (encryptionSecret : Option String) (oldSecrets : List String) : Option Encryptor :=
  match encryptionSecret with
  | none => none
  | some s => some (mk s (s :: oldSecrets))

/-! ## Bodies and payload decoding -/

/-- Runtime value reaching `decryptAndDecodeBody`'s `body : any` parameter. -/
inductive JsBody where
  | null
  | str (s : String)
  | obj (n : Nat)
  | other (typeofTag : String)
deriving Repr, DecidableEq

/-- Value produced by `decryptAndDecodeBody`: the literal `{}` for empty
input, an object passed through, the `EnhancedJSON.parse` of a plaintext
string, or — on the `catchDecryptionErrors` fallback path — the raw
(undecrypted) string returned as-is by `return body as any`. -/
inductive JsValue where
  | emptyObj
  | obj (n : Nat)
  | parsed (s : String)
  | raw (s : String)
deriving Repr, DecidableEq

/-- `decryptAndDecodeBody` from src/quirrel/src/client/index.ts.  The second
component records the errors passed to the `catchDecryptionErrors` callback
(when one is installed, `catchErrors = true`). -/
def decryptAndDecodeBody (encryptor : Option Encryptor) (catchErrors : Bool)
    (body : JsBody) : Except String JsValue × List String :=
  match body with
  | .null => (.ok .emptyObj, [])
  | .obj n => (.ok (.obj n), [])
  | .other t => (.error ("Invalid encoded body type: " ++ t), [])
  | .str s =>
    if s = "" then (.ok .emptyObj, [])
    else
      match encryptor with
      | none => (.ok (.parsed s), [])
      | some e =>
        match e.decrypt s with
        | .ok plain => (.ok (.parsed plain), [])
        | .error err =>
          if catchErrors then (.ok (.raw s), [err])
          else (.error err, [])

/-! ## Normalized request body (payloadAndOptionsToBody) -/

/-- `defaultJobOptions` (`Pick<EnqueueJobOptions, "exclusive" | "retry">`). -/
structure DefaultJobOptions where
  exclusive : Option Bool := none
  retry : Option (List DurationInput) := none
deriving Repr, DecidableEq

/-- The `repeat` member after normalization (`every` resolved to
milliseconds). Source field name `repeat` is `rep` here (reserved word). -/
structure RepeatBody where
  every : Option ℚ := none
  times : Option ℚ := none
  cron : Option String := none
deriving Repr, DecidableEq

/-- The object returned by `payloadAndOptionsToBody`: spread of
`defaultJobOptions` overwritten by the explicit keys.  Source field name
`repeat` is `rep` here (reserved word). -/
structure JobBody where
  exclusive : Option Bool := none
  body : String := ""
  delay : Option ℚ := none
  id : Option JobId := none
  rep : Option RepeatBody := none
  retry : Option (List (Option ℚ)) := none
  override : Option Bool := none
deriving Repr, DecidableEq

/-- An error thrown by the client: `new Error(msg)` or a zod parse failure
carrying its issue list. -/
inductive ClientError where
  | err (msg : String)
  | zod (issues : List String)
deriving Repr, DecidableEq

/-- `runAtToDelay` from src/quirrel/src/client/index.ts: `+value - Date.now()`. -/
def runAtToDelay (value : Int) (now : Int) : Int :=
  value - now

/-- `payloadAndOptionsToBody` from src/quirrel/src/client/index.ts.
Checks, in source order: payload must not be `undefined`; `repeat` together
with a non-empty `retry` throws; then `EnqueueJobOptionsSchema.parse`; then
the delay is resolved (`runAt` overriding `delay`), `repeat.every` is
resolved, and the payload is stringified and (when an encryptor is
configured) encrypted.  `now` is the single `Date.now()` of this synchronous
computation. -/
def payloadAndOptionsToBody {α : Type} (stringify : α → String)
    (encryptor : Option Encryptor) (defaults : Option DefaultJobOptions)
    (cronRefine : String → Bool) (now : Int)
    (payload : Option α) (options : EnqueueJobOptions) :
    Except ClientError JobBody :=
  match payload with
  | none => .error (.err "Passing `undefined` as Payload is not allowed")
  | some p =>
    if options.rep.isSome ∧ (options.retry.getD []) ≠ [] then
      .error (.err "retry and repeat cannot be used together")
    else if zodIssues cronRefine now options ≠ [] then
      .error (.zod (zodIssues cronRefine now options))
    else
      let delay : Option ℚ :=
        match options.runAt with
        | some t => some ((runAtToDelay t now : Int) : ℚ)
        | none => parseDuration options.delay
      let stringified := stringify p
      let stringifiedBody :=
        match encryptor with
        | some e => e.encrypt stringified
        | none => stringified
      .ok
        { exclusive := defaults.bind (fun d => d.exclusive)
          body := stringifiedBody
          delay := delay
          id := options.id
          rep := options.rep.map (fun r => ⟨parseDuration r.every, r.times, r.cron⟩)
          retry := options.retry.map (fun l => l.map (fun d => parseDuration (some d)))
          override := options.override }

/-! ## The SQL action string and its parsing back -/

/-- The header fragment of `httpRequestSQL`.  The source maps
`Object.entries(headers)` with a two-argument callback `(k, v)`, so `k` is a
whole `[key, value]` entry (template-stringified as `key,value`) and `v` is
the array index. -/
def httpHeaderFragment (headers : List (String × String)) : String :=
  String.intercalate ","
    ((headers.enum).map
      (fun e => "http_header(\x27" ++ e.2.1 ++ "," ++ e.2.2 ++ "\x27,\x27" ++ toString e.1 ++ "\x27)"))

/-- `httpRequestSQL` from src/quirrel/src/client/index.ts: the pg `http`
call specification interpolated into a textual SQL expression. -/
def httpRequestSQL (url : String) (method : String)
    (bodyJSON : String) (headers : List (String × String)) : String :=
  "http((\n    \x27" ++ method ++ "\x27,\n    \x27" ++ url ++ "\x27,\n    ARRAY[" ++
    httpHeaderFragment headers ++ "],\n    \x27application/json\x27,\n    \x27" ++
    bodyJSON ++ "\x27\n  )::http_request)"

/-- The command template passed to `cron.schedule` by `enqueue`:
`select status from <httpRequestSQL(endpoint, "POST", {}, headers)>` with the
fixed `x-quirrel-secret` header. -/
def scheduleCommand (endpoint : String) : String :=
  "\n          select status\n          from\n            " ++
    httpRequestSQL endpoint "POST" "\x7b\x7d" [("x-quirrel-secret", "TODO-secret")] ++
    "\n          "

/-- The single-quote character, used by the stored-command regular
expression of `dbJobToJob`. -/
def quoteChar : Char := Char.ofNat 39

/-- Lazy capture `.*?` up to the next single quote; `.` does not cross a
newline. -/
def takeUntilQuote : List Char → Option (List Char)
  | [] => none
  | c :: cs =>
    if c == quoteChar then some []
    else if c == Char.ofNat 10 then none
    else (takeUntilQuote cs).map (fun r => c :: r)

/-- First match of the regular expression `\x27(https?://.*?)\x27` in a stored
command (the `dbJob.command.match(...)` of `dbJobToJob`). -/
def extractEndpoint : List Char → Option String
  | [] => none
  | c :: cs =>
    if c == quoteChar then
      if "http://".data.isPrefixOf cs ∨ "https://".data.isPrefixOf cs then
        match takeUntilQuote cs with
        | some captured => some (String.mk captured)
        | none => extractEndpoint cs
      else extractEndpoint cs
    else extractEndpoint cs

/-- `JobDTO` (src/quirrel/src/client/job.ts) as produced by `dbJobToJob`:
numeric id, empty body, the endpoint parsed out of the stored command, and
`repeat.cron` set to the stored schedule.  Source field name `repeat` is
`rep` here (reserved word). -/
structure JobDTO where
  id : Int
  body : String
  endpoint : String
  rep : RepeatBody
deriving Repr, DecidableEq

/-- `dbJobToJob` from src/quirrel/src/client/index.ts; throws
`Failed to parse job endpoint!` when the stored command has no quoted
http(s) URL. -/
def dbJobToJob (j : DbJob) : Except ClientError JobDTO :=
  match extractEndpoint j.command.data with
  | none => .error (.err "Failed to parse job endpoint!")
  | some endpoint => .ok ⟨j.jobid, "", endpoint, { cron := some j.schedule }⟩

/-! ## Client operations against the registry -/

/-- The derived cron-job name: `("cron-job:" + route).substring(0, 64)`. -/
def cronJobName (route : String) : String :=
  String.mk (("cron-job:" ++ route).data.take 64)

/-- `deleteExisting` from src/quirrel/src/client/index.ts: deleteMany by
jobname, log when something was removed, report the count. -/
def deleteExisting (st : Registry) (jobName : String) : Registry × Nat × List String :=
  let r := deleteManyByJobname st jobName
  (r.1, r.2,
   if r.2 > 0 then ["Deleted " ++ toString r.2 ++ " existing job(s) for " ++ jobName] else [])

/-- `deleteAll` from src/quirrel/src/client/index.ts: unfiltered deleteMany;
the count is only logged (when positive), the method itself returns no
value. -/
def deleteAll (st : Registry) : Registry × Unit × List String :=
  let r := deleteManyAll st
  (r.1, (),
   if r.2 > 0 then ["Deleted " ++ toString r.2 ++ " job(s) during cleanup"] else [])

/-- `delete` from src/quirrel/src/client/index.ts: the sentinel string
`"@cron"` deletes by derived name, a numeric id deletes by jobid, any other
string throws `Invalid job id for delete`. -/
def clientDelete (route : String) (st : Registry) (id : JobId) :
    Except String Bool × Registry × List String :=
  match id with
  | .str s =>
    if s = "@cron" then
      let r := deleteExisting st (cronJobName route)
      (.ok (decide (r.2.1 > 0)), r.1, r.2.2)
    else
      (.error ("Invalid job id for delete: " ++ s), st, [])
  | .num n =>
    let r := deleteManyByJobid st n
    (.ok (decide (r.2 > 0)), r.1, [])

/-- The rows yielded by `get()` for a route:
`prisma.job.findMany({ where: { jobname: cronJobName route } })`. -/
def listJobs (route : String) (st : Registry) : List DbJob :=
  st.jobs.filter (fun j => j.jobname == cronJobName route)

/-- `enqueue` from src/quirrel/src/client/index.ts, returning the result (or
the thrown error), the registry state when control leaves the method, and the
log lines.  With a (truthy, i.e. nonempty) `repeat.cron` in the normalized
body it deletes any existing row under the derived name, registers the new
cron entry, and reads it back; otherwise it throws
`UNIMPLEMENTED: 'schedule' is required`. -/
def enqueue {α : Type} (stringify : α → String)
    (encryptor : Option Encryptor) (defaults : Option DefaultJobOptions)
    (cronRefine : String → Bool) (applicationBaseUrl route : String) (now : Int)
    (st : Registry) (payload : Option α) (options : EnqueueJobOptions) :
    Except ClientError JobDTO × Registry × List String :=
  match payloadAndOptionsToBody stringify encryptor defaults cronRefine now payload options with
  | .error e => (.error e, st, [])
  | .ok body =>
    let endpoint := applicationBaseUrl ++ "/" ++ route
    let cronSchedule := (body.rep.bind (fun r => r.cron)).getD ""
    if cronSchedule ≠ "" then
      let jobName := cronJobName route
      let del := deleteExisting st jobName
      let sched := cronScheduleOp del.1 jobName cronSchedule (scheduleCommand endpoint)
      match findFirstByJobid sched.1 sched.2 with
      | none =>
        (.error (.err ("Job " ++ toString sched.2 ++ " not found")), sched.1, del.2.2)
      | some dbJob =>
        match dbJobToJob dbJob with
        | .error e => (.error e, sched.1, del.2.2)
        | .ok dto =>
          (.ok dto, sched.1,
           del.2.2 ++
             ["enqueued job " ++ toString dto.id ++ ": \x22" ++ (dto.rep.cron.getD "") ++
               "\x22 at \x22" ++ dto.endpoint ++ "\x22"])
    else
      (.error (.err "UNIMPLEMENTED: \x27schedule\x27 is required"), st, [])

/-! ## Delivery responder (respondTo) -/

/-- The delivery metadata parsed out of the `x-quirrel-meta` header
(`{id, count, retry, nextRepetition, exclusive}`). -/
structure JobMeta where
  id : Option JobId := none
  count : Option Nat := none
  retry : Option (List ℚ) := none
  nextRepetition : Option String := none
  exclusive : Option Bool := none

/-- The HTTP-shaped response produced by `respondTo`. -/
structure HttpResponse where
  status : Nat
  headers : List (String × String)
  body : String
deriving Repr, DecidableEq

/-- The body of `respondTo` past the production-mode signature gate: decrypt
and decode the body, `JSON.parse` the meta header (defaulting to the empty
object literal), invoke the handler, and map its outcome to 200 "OK" or a
500 carrying the stringified error.  Decryption and meta-parse failures
propagate as thrown errors.  `parseMeta` models `JSON.parse` applied to the
header (external). -/
def respondToInner (encryptor : Option Encryptor) (catchErrors : Bool)
    (parseMeta : String → Except String JobMeta)
    (handler : JsValue → JobMeta → Except String Unit)
    (body : String) (metaHeader : Option String) : Except String HttpResponse := do
  let payload ← (decryptAndDecodeBody encryptor catchErrors (.str body)).1
  let meta ← parseMeta (metaHeader.getD "\x7b\x7d")
  match handler payload meta with
  | .ok _ => .ok ⟨200, [], "OK"⟩
  | .error e => .ok ⟨500, [], e⟩

/-- `respondTo` from src/quirrel/src/client/index.ts.  In production mode
(`NODE_ENV === "production"`) a missing `x-quirrel-signature` header yields
401 "Signature missing" and a present but unverifiable one yields 401
"Signature invalid"; otherwise the delivery proceeds through
`respondToInner`.  `verify` models the secure-webhooks `verify(body, token,
signature)` (external). -/
def respondTo (production : Bool) (verify : String → String → String → Bool)
    (token : String) (encryptor : Option Encryptor) (catchErrors : Bool)
    (parseMeta : String → Except String JobMeta)
    (handler : JsValue → JobMeta → Except String Unit)
    (body : String) (signature : Option String) (metaHeader : Option String) :
    Except String HttpResponse :=
  if production then
    match signature with
    | none => .ok ⟨401, [], "Signature missing"⟩
    | some sig =>
      if verify body token sig then
        respondToInner encryptor catchErrors parseMeta handler body metaHeader
      else .ok ⟨401, [], "Signature invalid"⟩
  else respondToInner encryptor catchErrors parseMeta handler body metaHeader

deriving instance DecidableEq for Except

/-! ## Helper lemmas -/

theorem checkUnit_mem {r : List Char} {u : String} (h : checkUnit r = some u) :
    u = "" ∨ u ∈ unitList := by
  simp only [checkUnit] at h
  split_ifs at h with h1 h2
  · left; exact (Option.some.inj h).symm
  · right; rw [← Option.some.inj h]; exact h2

theorem matchWithUnit_unit {neg : Bool} {ip fp rest : List Char} {m : MsMatch}
    (h : matchWithUnit neg ip fp rest = some m) :
    m.unit = "" ∨ m.unit ∈ unitList := by
  unfold matchWithUnit at h
  rw [Option.map_eq_some'] at h
  obtain ⟨u, hu, rfl⟩ := h
  simpa using checkUnit_mem hu

theorem matchVercelMs_unit {s : String} {m : MsMatch}
    (h : matchVercelMs s = some m) : m.unit = "" ∨ m.unit ∈ unitList := by
  simp only [matchVercelMs] at h
  split at h
  · split_ifs at h
    exact matchWithUnit_unit h
  · split_ifs at h
    exact matchWithUnit_unit h

theorem unitFactor_isSome {u : String} (h : u = "" ∨ u ∈ unitList) :
    (unitFactor (if u = "" then "ms" else u)).isSome = true := by
  rcases h with h | h
  · subst h; decide
  · have hall : ∀ v ∈ unitList, (unitFactor v).isSome = true := by decide
    split_ifs with he
    · decide
    · exact hall u h

theorem ms_eq_of_match {s : String} {m : MsMatch} (h : matchVercelMs s = some m) :
    ∃ v, ms s = some v := by
  have hu := unitFactor_isSome (matchVercelMs_unit h)
  rw [Option.isSome_iff_exists] at hu
  obtain ⟨f, hf⟩ := hu
  exact ⟨msMagnitude m * f, by simp [ms, h, hf]⟩

/-! ## Claim theorems -/

/-- Claim C9: for every input to the duration resolver: an absent input
resolves to `undefined`; a provided number is accepted exactly when it is at
least 1 and then resolves to itself (numbers below 1 are rejected with the
`must be positive` validation message rather than silently resolved); a
string is accepted exactly when it matches the vercel/ms grammar, in which
case it resolves to the `ms` value of that grammar, and otherwise fails with
the invalid-time-span validation message. -/
theorem C9_duration_resolver (fieldName : String) :
    parseDuration none = none
    ∧ (∀ q : ℚ, 1 ≤ q →
        timeDurationIssues fieldName (.num q) = [] ∧ parseDuration (some (.num q)) = some q)
    ∧ (∀ q : ℚ, q < 1 →
        timeDurationIssues fieldName (.num q) = [fieldName ++ " must be positive"])
    ∧ (∀ s m, matchVercelMs s = some m →
        timeDurationIssues fieldName (.str s) = []
        ∧ ∃ v, ms s = some v ∧ parseDuration (some (.str s)) = some v)
    ∧ (∀ s, matchVercelMs s = none →
        timeDurationIssues fieldName (.str s) =
          ["Please provide a valid time span, according to https://github.com/vercel/ms"]) := by
  refine ⟨rfl, ?_, ?_, ?_, ?_⟩
  · intro q hq
    have hne : q ≠ 0 := by intro h; rw [h] at hq; norm_num at hq
    exact ⟨by simp [timeDurationIssues, hq], by simp [parseDuration, hne]⟩
  · intro q hq
    simp [timeDurationIssues, not_le.mpr hq]
  · intro s m h
    have hs : s ≠ "" := by
      intro he
      rw [he, show matchVercelMs "" = none from by decide] at h
      exact Option.noConfusion h
    obtain ⟨v, hv⟩ := ms_eq_of_match h
    exact ⟨by simp [timeDurationIssues, h], v, hv, by simp [parseDuration, hs, hv]⟩
  · intro s h
    simp [timeDurationIssues, h]

/-- Witness for C9 at concrete inputs. -/
theorem C9_duration_resolver_witness :
    timeDurationIssues "duration" (.num 5) = []
    ∧ parseDuration (some (.num 5)) = some 5
    ∧ timeDurationIssues "duration" (.str "5min") = []
    ∧ timeDurationIssues "duration" (.str "bogus") =
        ["Please provide a valid time span, according to https://github.com/vercel/ms"] := by
  have h2 := (C9_duration_resolver "duration").2.1 5 (by norm_num)
  have h4 := (C9_duration_resolver "duration").2.2.2.1 "5min" ⟨false, ['5'], [], "min"⟩ (by decide)
  have h5 := (C9_duration_resolver "duration").2.2.2.2 "bogus" (by decide)
  exact ⟨h2.1, h2.2, h4.1, h5⟩

/-- Claim C5: whenever both `repeat` and a non-empty `retry` list are set,
normalization throws `retry and repeat cannot be used together` and `enqueue`
leaves the registry untouched, issuing neither a delete nor a create. -/
theorem C5_conflicting_schedule {α : Type} (stringify : α → String)
    (encryptor : Option Encryptor) (defaults : Option DefaultJobOptions)
    (cronRefine : String → Bool) (applicationBaseUrl route : String) (now : Int)
    (st : Registry) (p : α) (o : EnqueueJobOptions) (r : RepeatOptions)
    (l : List DurationInput) (hrep : o.rep = some r) (hretry : o.retry = some l)
    (hl : l ≠ []) :
    payloadAndOptionsToBody stringify encryptor defaults cronRefine now (some p) o =
      .error (.err "retry and repeat cannot be used together")
    ∧ enqueue stringify encryptor defaults cronRefine applicationBaseUrl route now st (some p) o =
      (.error (.err "retry and repeat cannot be used together"), st, []) := by
  have hcond : o.rep.isSome ∧ (o.retry.getD []) ≠ [] := by
    refine ⟨by simp [hrep], by simp [hretry, hl]⟩
  have h1 : payloadAndOptionsToBody stringify encryptor defaults cronRefine now (some p) o =
      .error (.err "retry and repeat cannot be used together") := by
    simp only [payloadAndOptionsToBody]
    rw [if_pos hcond]
  exact ⟨h1, by simp only [enqueue]; rw [h1]⟩

/-- Witness for C5 at concrete inputs. -/
theorem C5_conflicting_schedule_witness :
    payloadAndOptionsToBody (fun _ : Unit => "null") none none (fun _ => true) 0 (some ())
      { rep := some {}, retry := some [.num 5] } =
      .error (.err "retry and repeat cannot be used together") :=
  (C5_conflicting_schedule (fun _ : Unit => "null") none none (fun _ => true) "http://h" "/jobs"
    0 ⟨[], 1⟩ () { rep := some {}, retry := some [.num 5] } {} [.num 5] rfl rfl
    (by simp)).1

/-- Claim C6: when `runAt` lies strictly before the validation-time clock,
normalization fails with the `runAt must not be in the past` issue and
`enqueue` performs no registry call. -/
theorem C6_runAt_past {α : Type} (stringify : α → String)
    (encryptor : Option Encryptor) (defaults : Option DefaultJobOptions)
    (cronRefine : String → Bool) (applicationBaseUrl route : String) (now : Int)
    (st : Registry) (p : α) (o : EnqueueJobOptions) (t : Int)
    (hrun : o.runAt = some t) (ht : t < now)
    (hnc : ¬(o.rep.isSome ∧ (o.retry.getD []) ≠ [])) :
    (payloadAndOptionsToBody stringify encryptor defaults cronRefine now (some p) o =
      .error (.zod (zodIssues cronRefine now o))
      ∧ "runAt must not be in the past" ∈ zodIssues cronRefine now o)
    ∧ enqueue stringify encryptor defaults cronRefine applicationBaseUrl route now st (some p) o =
      (.error (.zod (zodIssues cronRefine now o)), st, []) := by
  have hmem : "runAt must not be in the past" ∈ zodIssues cronRefine now o := by
    simp [zodIssues, hrun, not_le.mpr ht]
  have hne : zodIssues cronRefine now o ≠ [] := by
    intro h0
    rw [h0] at hmem
    exact (List.not_mem_nil _) hmem
  have h1 : payloadAndOptionsToBody stringify encryptor defaults cronRefine now (some p) o =
      .error (.zod (zodIssues cronRefine now o)) := by
    simp only [payloadAndOptionsToBody]
    rw [if_neg hnc, if_pos hne]
  exact ⟨⟨h1, hmem⟩, by simp only [enqueue]; rw [h1]⟩

/-- Witness for C6 at a concrete input (runAt one hour before `now = 0`). -/
theorem C6_runAt_past_witness :
    payloadAndOptionsToBody (fun _ : Unit => "null") none none (fun _ => true) 0 (some ())
      { runAt := some (-3600000) } =
      .error (.zod (zodIssues (fun _ => true) 0 { runAt := some (-3600000) }))
    ∧ "runAt must not be in the past" ∈ zodIssues (fun _ => true) 0 { runAt := some (-3600000) } :=
  (C6_runAt_past (fun _ : Unit => "null") none none (fun _ => true) "http://h" "/jobs" 0
    ⟨[], 1⟩ () { runAt := some (-3600000) } (-3600000) rfl (by decide) (by simp)).1

/-- Claim C7 as stated is false on the code: the resolved delay is the raw
`ms` value of the `delay` option, which the accepted grammar lets be
negative (`"-5s"` resolves to `-5000`), and an absent `delay` resolves to
`undefined`, not to 0. -/
theorem C7_counterexample :
    (payloadAndOptionsToBody (fun _ : Unit => "null") none none (fun _ => true) 0 (some ())
        { delay := some (.str "-5s") }).map (fun b => b.delay) = Except.ok (some (-5000))
    ∧ ((-5000 : ℚ) < 0)
    ∧ (payloadAndOptionsToBody (fun _ : Unit => "null") none none (fun _ => true) 0 (some ())
        {}).map (fun b => b.delay) = Except.ok none := by
  refine ⟨?_, by norm_num, ?_⟩
  · have hd : parseDuration (some (.str "-5s")) = some (-5000) := by
      simp [parseDuration, ms,
        show matchVercelMs "-5s" = some ⟨true, ['5'], [], "s"⟩ from by decide,
        unitFactor, msMagnitude, digitsToNat]
      norm_num
    have hiss : zodIssues (fun _ => true) 0 { delay := some (.str "-5s") } = [] := by
      simp [zodIssues, timeDurationIssues,
        show (matchVercelMs "-5s").isSome = true from by decide]
    simp [payloadAndOptionsToBody, hiss, hd, Except.map]
  · simp [payloadAndOptionsToBody, zodIssues, parseDuration, Except.map]

/-- Claim C7 (amended): for every options value accepted by normalization,
when `runAt` is given the resolved delay equals `runAt − now` (taking
precedence over any `delay` option) and is non-negative thanks to the
`runAt` validation; otherwise it equals the resolved `delay` option — which
the grammar allows to be negative for negative duration strings — and it is
left unset (`undefined`), not 0, when `delay` is absent. -/
theorem C7_delay_resolution {α : Type} (stringify : α → String)
    (encryptor : Option Encryptor) (defaults : Option DefaultJobOptions)
    (cronRefine : String → Bool) (now : Int) (payload : Option α)
    (o : EnqueueJobOptions) (b : JobBody)
    (hok : payloadAndOptionsToBody stringify encryptor defaults cronRefine now payload o = .ok b) :
    (∀ t, o.runAt = some t →
      b.delay = some ((runAtToDelay t now : Int) : ℚ) ∧ (0 : ℚ) ≤ ((runAtToDelay t now : Int) : ℚ))
    ∧ (o.runAt = none → b.delay = parseDuration o.delay)
    ∧ (o.runAt = none → o.delay = none → b.delay = none) := by
  match payload with
  | none => exact absurd hok (by simp [payloadAndOptionsToBody])
  | some p =>
    simp only [payloadAndOptionsToBody] at hok
    split_ifs at hok with hc hiss
    have hissnil : zodIssues cronRefine now o = [] := not_ne_iff.mp hiss
    have hb : b.delay =
        (match o.runAt with
         | some t => some ((runAtToDelay t now : Int) : ℚ)
         | none => parseDuration o.delay) := by
      have := Except.ok.inj hok
      rw [← this]
    refine ⟨?_, ?_, ?_⟩
    · intro t hrun
      have hle : now ≤ t := by
        by_contra hlt
        have : "runAt must not be in the past" ∈ zodIssues cronRefine now o := by
          simp [zodIssues, hrun, hlt]
        rw [hissnil] at this
        exact (List.not_mem_nil _) this
      refine ⟨by rw [hb, hrun], ?_⟩
      have : (0 : Int) ≤ runAtToDelay t now := by
        simp only [runAtToDelay]
        omega
      exact_mod_cast this
    · intro hrun
      rw [hb, hrun]
    · intro hrun hdel
      rw [hb, hrun, hdel]
      rfl

/-- Witness for the amended C7 at a concrete input (`runAt = 7`, `now = 0`). -/
theorem C7_delay_resolution_witness :
    ∃ b, payloadAndOptionsToBody (fun _ : Unit => "null") none none (fun _ => true) 0 (some ())
        { runAt := some 7 } = .ok b
      ∧ b.delay = some ((runAtToDelay 7 0 : Int) : ℚ)
      ∧ (0 : ℚ) ≤ ((runAtToDelay 7 0 : Int) : ℚ) := by
  have hok : payloadAndOptionsToBody (fun _ : Unit => "null") none none (fun _ => true) 0
      (some ()) { runAt := some 7 } =
      .ok { body := "null", delay := some ((runAtToDelay 7 0 : Int) : ℚ) } := by
    simp [payloadAndOptionsToBody, zodIssues]
  have h := (C7_delay_resolution (fun _ : Unit => "null") none none (fun _ => true) 0 (some ())
    { runAt := some 7 } _ hok).1 7 rfl
  exact ⟨_, hok, h.1, h.2⟩

/-- Claim C4: when decryption of a string body fails under every configured
secret, the failure propagates to the caller when no fallback handler is
installed, and is observed by the fallback handler when one is; and whenever
the undecryptable ciphertext is returned as the payload (the fallback path's
`return body as any`), the error was observed — never silently. -/
theorem C4_decryption_failure (e : Encryptor) (s err : String) (hs : s ≠ "")
    (hd : e.decrypt s = .error err) :
    decryptAndDecodeBody (some e) false (.str s) = (.error err, [])
    ∧ decryptAndDecodeBody (some e) true (.str s) = (.ok (.raw s), [err])
    ∧ (∀ (enc : Option Encryptor) (catchErrors : Bool) (b : JsBody) (v : String),
        (decryptAndDecodeBody enc catchErrors b).1 = .ok (.raw v) →
        (decryptAndDecodeBody enc catchErrors b).2 ≠ []) := by
  refine ⟨by simp [decryptAndDecodeBody, hs, hd], by simp [decryptAndDecodeBody, hs, hd], ?_⟩
  intro enc catchErrors b v h
  cases b with
  | null => simp [decryptAndDecodeBody] at h
  | obj n => simp [decryptAndDecodeBody] at h
  | other t => simp [decryptAndDecodeBody] at h
  | str s2 =>
    by_cases hs2 : s2 = ""
    · simp [decryptAndDecodeBody, hs2] at h
    · cases enc with
      | none => simp [decryptAndDecodeBody, hs2] at h
      | some e2 =>
        cases hd2 : e2.decrypt s2 with
        | ok plain => simp [decryptAndDecodeBody, hs2, hd2] at h
        | error err2 =>
          cases catchErrors with
          | false => simp [decryptAndDecodeBody, hs2, hd2] at h
          | true => simp [decryptAndDecodeBody, hs2, hd2]

/-- Witness for C4 with a decryptor that rejects every ciphertext. -/
theorem C4_decryption_failure_witness :
    decryptAndDecodeBody (some ⟨id, fun _ => .error "DecryptionFailed"⟩) false (.str "cipher") =
      (.error "DecryptionFailed", [])
    ∧ decryptAndDecodeBody (some ⟨id, fun _ => .error "DecryptionFailed"⟩) true (.str "cipher") =
      (.ok (.raw "cipher"), ["DecryptionFailed"]) := by
  have h := C4_decryption_failure ⟨id, fun _ => .error "DecryptionFailed"⟩ "cipher"
    "DecryptionFailed" (by decide) rfl
  exact ⟨h.1, h.2.1⟩

/-- Claim C3: in production mode, a missing signature header yields 401
"Signature missing" and a present but unverifiable one yields 401
"Signature invalid", in both cases for every handler (so without invoking
it); with a verified signature, a normally-returning handler yields 200 "OK"
and a raising handler yields 500 with the stringified error as body. -/
theorem C3_respondTo_production (verify : String → String → String → Bool) (token : String)
    (encryptor : Option Encryptor) (catchErrors : Bool)
    (parseMeta : String → Except String JobMeta) (body : String) (metaHeader : Option String) :
    (∀ handler,
      respondTo true verify token encryptor catchErrors parseMeta handler body none metaHeader =
        .ok ⟨401, [], "Signature missing"⟩)
    ∧ (∀ handler sig, verify body token sig = false →
        respondTo true verify token encryptor catchErrors parseMeta handler body (some sig) metaHeader =
          .ok ⟨401, [], "Signature invalid"⟩)
    ∧ (∀ handler sig payload meta, verify body token sig = true →
        (decryptAndDecodeBody encryptor catchErrors (.str body)).1 = .ok payload →
        parseMeta (metaHeader.getD "\x7b\x7d") = .ok meta →
        handler payload meta = .ok () →
        respondTo true verify token encryptor catchErrors parseMeta handler body (some sig) metaHeader =
          .ok ⟨200, [], "OK"⟩)
    ∧ (∀ handler sig payload meta errMsg, verify body token sig = true →
        (decryptAndDecodeBody encryptor catchErrors (.str body)).1 = .ok payload →
        parseMeta (metaHeader.getD "\x7b\x7d") = .ok meta →
        handler payload meta = .error errMsg →
        respondTo true verify token encryptor catchErrors parseMeta handler body (some sig) metaHeader =
          .ok ⟨500, [], errMsg⟩) := by
  refine ⟨fun handler => rfl, ?_, ?_, ?_⟩
  · intro handler sig hv
    simp [respondTo, hv]
  · intro handler sig payload meta hv hdec hmeta hh
    simp [respondTo, hv, respondToInner, hdec, hmeta, hh, Bind.bind, Except.bind]
  · intro handler sig payload meta errMsg hv hdec hmeta hh
    simp [respondTo, hv, respondToInner, hdec, hmeta, hh, Bind.bind, Except.bind]

/-- Witness for C3 at concrete deliveries. -/
theorem C3_respondTo_production_witness :
    respondTo true (fun _ _ sig => sig == "good") "tok" none false (fun _ => .ok {})
      (fun _ _ => .ok ()) "" none none = .ok ⟨401, [], "Signature missing"⟩
    ∧ respondTo true (fun _ _ sig => sig == "good") "tok" none false (fun _ => .ok {})
      (fun _ _ => .ok ()) "" (some "bogus") none = .ok ⟨401, [], "Signature invalid"⟩
    ∧ respondTo true (fun _ _ sig => sig == "good") "tok" none false (fun _ => .ok {})
      (fun _ _ => .ok ()) "" (some "good") none = .ok ⟨200, [], "OK"⟩
    ∧ respondTo true (fun _ _ sig => sig == "good") "tok" none false (fun _ => .ok {})
      (fun _ _ => .error "boom") "" (some "good") none = .ok ⟨500, [], "boom"⟩ := by
  have h := C3_respondTo_production (fun _ _ sig => sig == "good") "tok" none false
    (fun _ => .ok {}) "" none
  exact ⟨h.1 (fun _ _ => .ok ()),
    h.2.1 (fun _ _ => .ok ()) "bogus" (by decide),
    h.2.2.1 (fun _ _ => .ok ()) "good" .emptyObj {} (by decide) rfl rfl rfl,
    h.2.2.2 (fun _ _ => .error "boom") "good" .emptyObj {} "boom" (by decide) rfl rfl rfl⟩

/-- Claim C10: `delete` throws `Invalid job id for delete` for every string
id other than the sentinel `"@cron"`; the sentinel deletes by derived name
and numeric ids delete by jobid, each returning whether an entry was
removed. -/
theorem C10_delete_dispatch (route : String) (st : Registry) :
    (∀ s, s ≠ "@cron" →
      clientDelete route st (.str s) = (.error ("Invalid job id for delete: " ++ s), st, []))
    ∧ ((clientDelete route st (.str "@cron")).1 =
        .ok (decide (0 < (st.jobs.filter (fun j => j.jobname == cronJobName route)).length))
      ∧ (clientDelete route st (.str "@cron")).2.1.jobs =
        st.jobs.filter (fun j => j.jobname != cronJobName route))
    ∧ (∀ n : Int, (clientDelete route st (.num n)).1 =
        .ok (decide (0 < (st.jobs.filter (fun j => j.jobid == n)).length))
      ∧ (clientDelete route st (.num n)).2.1.jobs =
        st.jobs.filter (fun j => j.jobid != n)) := by
  refine ⟨?_, ?_, ?_⟩
  · intro s hsne
    simp [clientDelete, hsne]
  · exact ⟨rfl, rfl⟩
  · intro n
    exact ⟨rfl, rfl⟩

/-- Witness for C10 at concrete ids. -/
theorem C10_delete_dispatch_witness :
    clientDelete "/jobs" ⟨[], 1⟩ (.str "nope") =
      (.error ("Invalid job id for delete: " ++ "nope"), ⟨[], 1⟩, []) :=
  (C10_delete_dispatch "/jobs" ⟨[], 1⟩).1 "nope" (by decide)

/-- Claim C8 as stated is false on the code: `deleteAll` returns no value
(`Promise<void>`), so its return value cannot report the removed count —
here two registries from which 1 and 2 entries are removed produce identical
return values — and when nothing was removed no count is reported at all,
not even on the log. -/
theorem C8_counterexample :
    (deleteAll ⟨[⟨1, "* * * * *", "c", "a", true⟩], 2⟩).2.1 =
      (deleteAll ⟨[⟨1, "* * * * *", "c", "a", true⟩, ⟨2, "0 * * * *", "c", "b", true⟩], 3⟩).2.1
    ∧ (deleteManyAll ⟨[⟨1, "* * * * *", "c", "a", true⟩], 2⟩).2 = 1
    ∧ (deleteManyAll ⟨[⟨1, "* * * * *", "c", "a", true⟩, ⟨2, "0 * * * *", "c", "b", true⟩], 3⟩).2 = 2
    ∧ (deleteAll ⟨[], 5⟩).2.2 = [] :=
  ⟨rfl, rfl, rfl, rfl⟩

/-- Claim C8 (amended): `deleteAll` removes every registry entry (the
unfiltered deleteMany empties the table, and a subsequent listing for any
route yields nothing); it returns no value, and the number of removed
entries — the prior table size — is reported only as a log line and only
when positive. -/
theorem C8_deleteAll (st : Registry) (route : String) :
    (deleteAll st).1.jobs = []
    ∧ (deleteManyAll st).2 = st.jobs.length
    ∧ (deleteAll st).2.2 =
        (if 0 < st.jobs.length then
          ["Deleted " ++ toString st.jobs.length ++ " job(s) during cleanup"] else [])
    ∧ listJobs route (deleteAll st).1 = [] :=
  ⟨rfl, rfl, rfl, rfl⟩

theorem payloadAndOptionsToBody_ok {α : Type} (stringify : α → String)
    (encryptor : Option Encryptor) (defaults : Option DefaultJobOptions)
    (cronRefine : String → Bool) (now : Int) (p : α) (o : EnqueueJobOptions)
    (hnc : ¬(o.rep.isSome ∧ (o.retry.getD []) ≠ []))
    (hiss : zodIssues cronRefine now o = []) :
    payloadAndOptionsToBody stringify encryptor defaults cronRefine now (some p) o =
      .ok
        { exclusive := defaults.bind (fun d => d.exclusive)
          body :=
            match encryptor with
            | some e => e.encrypt (stringify p)
            | none => stringify p
          delay :=
            match o.runAt with
            | some t => some ((runAtToDelay t now : Int) : ℚ)
            | none => parseDuration o.delay
          id := o.id
          rep := o.rep.map (fun r => ⟨parseDuration r.every, r.times, r.cron⟩)
          retry := o.retry.map (fun l => l.map (fun d => parseDuration (some d)))
          override := o.override } := by
  simp only [payloadAndOptionsToBody]
  rw [if_neg hnc, if_neg (by simp [hiss])]

theorem find?_jobname_filter_ne (l : List DbJob) (name : String) :
    (l.filter (fun j => j.jobname != name)).find? (fun j => j.jobname == name) = none := by
  rw [List.find?_eq_none]
  intro x hx
  have hmem := (List.mem_filter.mp hx).2
  simp only [bne_iff_ne, ne_eq] at hmem
  simp [hmem]

theorem filter_eq_of_filter_ne (l : List DbJob) (name : String) :
    (l.filter (fun j => j.jobname != name)).filter (fun j => j.jobname == name) = [] := by
  rw [List.filter_eq_nil_iff]
  intro x hx
  have hmem := (List.mem_filter.mp hx).2
  simp only [bne_iff_ne, ne_eq] at hmem
  simp [hmem]

theorem filter_ne_idem (l : List DbJob) (name : String) :
    (l.filter (fun j => j.jobname != name)).filter (fun j => j.jobname != name) =
      l.filter (fun j => j.jobname != name) := by
  apply List.filter_eq_self.mpr
  intro x hx
  exact (List.mem_filter.mp hx).2

/-- The registry state left behind by a cron enqueue whose normalization
succeeded with a nonempty cron string: the rows under the derived name are
dropped and a single fresh row with the new schedule is appended. -/
theorem enqueue_registry_of_ok {α : Type} (stringify : α → String)
    (encryptor : Option Encryptor) (defaults : Option DefaultJobOptions)
    (cronRefine : String → Bool) (applicationBaseUrl route : String) (now : Int)
    (st : Registry) (payload : Option α) (o : EnqueueJobOptions) (b : JobBody) (c : String)
    (hok : payloadAndOptionsToBody stringify encryptor defaults cronRefine now payload o = .ok b)
    (hcron : b.rep.bind (fun r => r.cron) = some c) (hc : c ≠ "") :
    (enqueue stringify encryptor defaults cronRefine applicationBaseUrl route now st payload o).2.1 =
      ⟨st.jobs.filter (fun j => j.jobname != cronJobName route) ++
        [⟨st.nextId, c, scheduleCommand (applicationBaseUrl ++ "/" ++ route), cronJobName route, true⟩],
       st.nextId + 1⟩ := by
  simp only [enqueue, hok, hcron, Option.getD_some, deleteExisting, deleteManyByJobname,
    cronScheduleOp, find?_jobname_filter_ne]
  rw [if_pos hc]
  cases hfind :
      findFirstByJobid
        ⟨st.jobs.filter (fun j => j.jobname != cronJobName route) ++
          [⟨st.nextId, c, scheduleCommand (applicationBaseUrl ++ "/" ++ route), cronJobName route, true⟩],
         st.nextId + 1⟩ st.nextId with
  | none => simp [hfind]
  | some dbJob =>
    cases hdto : dbJobToJob dbJob with
    | error e => simp [hfind, hdto]
    | ok dto => simp [hfind, hdto]

/-- Claim C1: enqueueing with `repeat.cron` first deletes every registry row
whose name is `cron-job:${route}` truncated to 64 characters and then
creates the new entry, so after two successive (successfully validated) cron
enqueues on the same route the registry holds exactly one live row under
that name, carrying the second enqueue's cron schedule. -/
theorem C1_cron_replace {α : Type} (stringify : α → String)
    (encryptor : Option Encryptor) (defaults : Option DefaultJobOptions)
    (cronRefine : String → Bool) (applicationBaseUrl route : String)
    (now1 now2 : Int) (st : Registry) (p1 p2 : α) (o1 o2 : EnqueueJobOptions)
    (r1 r2 : RepeatOptions) (c1 c2 : String)
    (hrep1 : o1.rep = some r1) (hcron1 : r1.cron = some c1) (hne1 : c1 ≠ "")
    (hretry1 : o1.retry.getD [] = []) (hiss1 : zodIssues cronRefine now1 o1 = [])
    (hrep2 : o2.rep = some r2) (hcron2 : r2.cron = some c2) (hne2 : c2 ≠ "")
    (hretry2 : o2.retry.getD [] = []) (hiss2 : zodIssues cronRefine now2 o2 = []) :
    ∃ j : DbJob,
      ((enqueue stringify encryptor defaults cronRefine applicationBaseUrl route now2
          (enqueue stringify encryptor defaults cronRefine applicationBaseUrl route now1
            st (some p1) o1).2.1
          (some p2) o2).2.1).jobs.filter (fun k => k.jobname == cronJobName route) = [j]
      ∧ j.schedule = c2 ∧ j.active = true := by
  have hr1 :=
    enqueue_registry_of_ok stringify encryptor defaults cronRefine applicationBaseUrl route now1
      st (some p1) o1 _ c1
      (payloadAndOptionsToBody_ok stringify encryptor defaults cronRefine now1 p1 o1
        (by simp [hretry1]) hiss1)
      (by simp [hrep1, hcron1]) hne1
  have hr2 :=
    enqueue_registry_of_ok stringify encryptor defaults cronRefine applicationBaseUrl route now2
      (enqueue stringify encryptor defaults cronRefine applicationBaseUrl route now1
        st (some p1) o1).2.1
      (some p2) o2 _ c2
      (payloadAndOptionsToBody_ok stringify encryptor defaults cronRefine now2 p2 o2
        (by simp [hretry2]) hiss2)
      (by simp [hrep2, hcron2]) hne2
  rw [hr1] at hr2
  refine ⟨⟨st.nextId + 1, c2, scheduleCommand (applicationBaseUrl ++ "/" ++ route),
    cronJobName route, true⟩, ?_, rfl, rfl⟩
  rw [hr1, hr2]
  simp only [List.filter_append, filter_eq_of_filter_ne, filter_ne_idem]
  simp

/-- Witness for C1: two cron enqueues on route `/jobs` starting from an
empty registry. -/
theorem C1_cron_replace_witness :
    ∃ j : DbJob,
      ((enqueue (fun _ : Unit => "null") none none (fun _ => true) "http://h" "/jobs" 0
          (enqueue (fun _ : Unit => "null") none none (fun _ => true) "http://h" "/jobs" 0
            ⟨[], 1⟩ (some ()) { rep := some { cron := some "* * * * *" } }).2.1
          (some ()) { rep := some { cron := some "0 0 * * *" } }).2.1).jobs.filter
        (fun k => k.jobname == cronJobName "/jobs") = [j]
      ∧ j.schedule = "0 0 * * *" ∧ j.active = true :=
  C1_cron_replace (fun _ : Unit => "null") none none (fun _ => true) "http://h" "/jobs" 0 0
    ⟨[], 1⟩ () () { rep := some { cron := some "* * * * *" } }
    { rep := some { cron := some "0 0 * * *" } } { cron := some "* * * * *" }
    { cron := some "0 0 * * *" } "* * * * *" "0 0 * * *"
    rfl rfl (by decide) rfl rfl rfl rfl (by decide) rfl rfl

/-- Claim C2 fails as a code bug: the exported `cron` schema refines with
`isValidRegex` — regular-expression validity, not cron validity — although
its own error message promises cron-expression validation.  Under JavaScript
`RegExp` semantics the canonical well-formed 5-field expression
`"* * * * *"` is an invalid pattern (`*` with nothing to repeat), so the
schema rejects exactly the input the claim requires it to accept. -/
theorem C2_cron_validation_bug (isValidRegex : String → Bool)
    (hjs : isValidRegex "* * * * *" = false) :
    cronAccepts isValidRegex "* * * * *" = false
    ∧ wellFormedCron5 "* * * * *" = true
    ∧ zodIssues isValidRegex 0 { rep := some { cron := some "* * * * *" } } =
        ["Please provide a valid Cron expression. See https://github.com/harrisiirak/cron-parser for reference"] := by
  refine ⟨hjs, by decide, ?_⟩
  simp [zodIssues, hjs]

/-- Witness for C2 with a refinement function rejecting `"* * * * *"`. -/
theorem C2_cron_validation_bug_witness :
    cronAccepts (fun _ => false) "* * * * *" = false
    ∧ wellFormedCron5 "* * * * *" = true :=
  ⟨(C2_cron_validation_bug (fun _ => false) rfl).1,
   (C2_cron_validation_bug (fun _ => false) rfl).2.1⟩

end Quirrel
